import Mathlib

/-!
Verification of the juniper binding-synthesizer core against its
natural-language specification.

The development shallowly embeds the three source files:

* `src/juniper_codegen/src/derive_scalar_value.rs` (namespace `ScalarValueDerive`),
* `src/juniper_codegen/src/graphql_scalar/derive.rs` (namespace `GraphQLScalarDerive`),
* `src/juniper/src/validation/rules/limit_number_of_aliases.rs` (namespace `AliasesRule`).

Rust `syn` type expressions are modelled by the `Ty`/`SynPath` family below,
restricted to the constructors the analysed code can distinguish.  Token
streams emitted by the derive macros are modelled by small expression ASTs
whose constructors stand for the alternative `quote!` bodies in the source;
evaluation functions give the runtime semantics of the emitted match
expressions where a claim is about that runtime behaviour.
-/

/-! ## Model of the relevant `syn` data types -/

mutual

/-- Subset of `syn::Type` covering the constructors reachable by the
`IsVariantGeneric` visitor: plain paths, references, parenthesised and
grouped types, arrays, slices and tuples.  The default `syn` visitor
descends through all of them into the contained types. -/
inductive Ty where
  | path (p : SynPath)
  | reference (elem : Ty)
  | paren (elem : Ty)
  | group (elem : Ty)
  | array (elem : Ty)
  | slice (elem : Ty)
  | tuple (elems : List Ty)

/-- Model of `syn::SynPath`: an optional leading `::` and a list of segments. -/
inductive SynPath where
  | mk (leadingColon : Bool) (segments : List PathSegment)

/-- Model of `syn::PathSegment`: an identifier plus its arguments. -/
inductive PathSegment where
  | mk (ident : String) (arguments : PathArguments)

/-- Model of `syn::PathArguments` (parenthesised arguments are not
distinguished from angle-bracketed ones for this analysis). -/
inductive PathArguments where
  | noArguments
  | angleBracketed (args : List GenericArgument)

/-- Model of `syn::GenericArgument`: a type argument or a non-type
argument (lifetime, const, ...), which contains no types to visit. -/
inductive GenericArgument where
  | typeArg (t : Ty)
  | lifetimeArg

end

/-- Projection: segments of a path. -/
def SynPath.segments : SynPath → List PathSegment
  | .mk _ segs => segs

/-- Projection: leading colon flag of a path. -/
def SynPath.leadingColon : SynPath → Bool
  | .mk lc _ => lc

/-- Projection: identifier of a path segment. -/
def PathSegment.ident : PathSegment → String
  | .mk id _ => id

/-- Projection: arguments of a path segment. -/
def PathSegment.arguments : PathSegment → PathArguments
  | .mk _ args => args

/-- Model of `syn::SynPath::get_ident`: yields the identifier only for a
path with no leading colon and exactly one argument-free segment. -/
def SynPath.get_ident : SynPath → Option String
  | .mk false [.mk id .noArguments] => some id
  | _ => none

/-- Model of `syn::GenericParam`: type, lifetime or const parameter. -/
inductive GenericParam where
  | typeParam (ident : String)
  | lifetimeParam (ident : String)
  | constParam (ident : String)
deriving DecidableEq

/-- Model of `syn::Generics` (only the parameter list matters here). -/
structure Generics where
  params : List GenericParam
deriving DecidableEq

/-- The membership test inside `IsVariantGeneric::visit_path`: whether
`ident` names one of the declaration's own type parameters. -/
def is_generic_param (g : Generics) (ident : String) : Bool :=
  g.params.any fun par =>
    match par with
    | .typeParam tyIdent => tyIdent == ident
    | _ => false

/-! ### The `IsVariantGeneric` visitor (`derive_scalar_value.rs` lines 445-482)

The visitor keeps a single monotone boolean `res`; we model each `visit_*`
method as a function returning whether the traversal would set `res`.
`visit_type`, `visit_segment_list`, `visit_path_arguments` and
`visit_generic_argument_list` are the default `syn::visit` traversals,
which the Rust code does not override.  `visit_path` is the override from
the source: on a bare identifier it tests parameter membership, marking
dependence on a match and falling back to the default path traversal on a
non-match; on any other path shape it does nothing at all. -/

mutual

/-- Default `syn::visit::visit_type` dispatch (not overridden in the source). -/
def visit_type (g : Generics) (t : Ty) : Bool :=
  match t with
  | .path p => visit_path g p
  | .reference e => visit_type g e
  | .paren e => visit_type g e
  | .group e => visit_type g e
  | .array e => visit_type g e
  | .slice e => visit_type g e
  | .tuple es => visit_type_list g es
termination_by (sizeOf t, 0)

/-- Traversal of a list of types (tuple elements). -/
def visit_type_list (g : Generics) (ts : List Ty) : Bool :=
  match ts with
  | [] => false
  | t :: rest => visit_type g t || visit_type_list g rest
termination_by (sizeOf ts, 0)

/-- The overridden `IsVariantGeneric::visit_path`.  Mirrors the source:
only when `path.get_ident()` yields an identifier does anything happen;
a matching identifier sets `res`, a non-matching one re-enters the
default `syn::visit::visit_path` traversal.  A path that is not a bare
identifier (extra segments or type arguments) is left unvisited. -/
def visit_path (g : Generics) (p : SynPath) : Bool :=
  match p.get_ident with
  | some ident =>
      if is_generic_param g ident then true
      else visit_path_default g p
  | none => false
termination_by (sizeOf p, 1)

/-- Default `syn::visit::visit_path`: visit every segment. -/
def visit_path_default (g : Generics) (p : SynPath) : Bool :=
  match p with
  | .mk _ segs => visit_segment_list g segs
termination_by (sizeOf p, 0)

/-- Traversal of path segments (default visitor). -/
def visit_segment_list (g : Generics) (ss : List PathSegment) : Bool :=
  match ss with
  | [] => false
  | .mk _ args :: rest => visit_path_arguments g args || visit_segment_list g rest
termination_by (sizeOf ss, 0)

/-- Default traversal of one segment's arguments. -/
def visit_path_arguments (g : Generics) (a : PathArguments) : Bool :=
  match a with
  | .noArguments => false
  | .angleBracketed args => visit_generic_argument_list g args
termination_by (sizeOf a, 0)

/-- Default traversal of generic arguments: only type arguments contain
types to visit. -/
def visit_generic_argument_list (g : Generics) (args : List GenericArgument) : Bool :=
  match args with
  | [] => false
  | .typeArg t :: rest => visit_type g t || visit_generic_argument_list g rest
  | .lifetimeArg :: rest => visit_generic_argument_list g rest
termination_by (sizeOf args, 0)
end

/-- Running the `IsVariantGeneric` visitor over a field type, as done in
`Definition::impl_display_tokens`: construct the visitor, call
`visit_type`, read off `res`. -/
def is_variant_generic (g : Generics) (t : Ty) : Bool :=
  visit_type g t

/-! ## Shared modelling of `syn` declaration shapes -/

/-- Rust callable/type paths appearing in attribute values are modelled as
plain strings. -/
abbrev ExprPath := String

/-- Model of `syn::Field`: an optional identifier (named vs positional)
and a type. -/
structure FieldDecl where
  ident : Option String
  ty : Ty

/-- Model of `syn::Fields`: named, unnamed (tuple) or unit fields. -/
inductive Fields where
  | named (fields : List FieldDecl)
  | unnamed (fields : List FieldDecl)
  | unit

/-- Number of payload fields carried by a `syn::Fields` value. -/
def Fields.count : Fields → Nat
  | .named fs => fs.length
  | .unnamed fs => fs.length
  | .unit => 0

/-- Type of the first field, as read by `impl_display_tokens` and
`impl_from_tokens` via `fields.iter().next().unwrap().ty` (the source
unwraps; variants reaching emission always carry exactly one field). -/
def Fields.first_ty : Fields → Option Ty
  | .named (f :: _) => some f.ty
  | .unnamed (f :: _) => some f.ty
  | _ => none

/-! ## Embedding of `derive_scalar_value.rs` (`#[derive(GraphQLScalarValue)]`) -/

namespace ScalarValueDerive

/-- The six projection operations (`Method` enum, lines 56-75). -/
inductive Method where
  | asInt
  | asFloat
  | asStr
  | asString
  | intoString
  | asBoolean
deriving DecidableEq

/-- One raw entry of a `#[graphql(...)]` annotation on an enum variant:
`key` or `key = path`. -/
structure AttrEntry where
  ident : String
  expr : Option ExprPath
deriving DecidableEq

/-- Errors produced by this derive macro. -/
inductive Error where
  | notEnum
  | shapeError
  | unknownArg (name : String)
  | dupArg
deriving DecidableEq

/-- The key-to-operation table inside `impl Parse for VariantAttr`
(lines 87-97). -/
def method_of_name : String → Option Method
  | "as_int" => some .asInt
  | "as_float" => some .asFloat
  | "as_str" => some .asStr
  | "as_string" => some .asString
  | "into_string" => some .intoString
  | "as_bool" => some .asBoolean
  | "as_boolean" => some .asBoolean
  | _ => none

/-- Parsed `VariantAttr` payload: the recognized operations with their
optional custom resolvers, in source order (spans dropped). -/
abbrev VariantAttr := List (Method × Option ExprPath)

/-- Model of `impl Parse for VariantAttr` (lines 82-112): recognize each
key, keep its optional `= path` value, fail on the first unknown key. -/
def VariantAttr.parse : List AttrEntry → Except Error VariantAttr
  | [] => .ok []
  | e :: rest =>
      match method_of_name e.ident with
      | some m => do
          let out ← VariantAttr.parse rest
          pure ((m, e.expr) :: out)
      | none => .error (.unknownArg e.ident)

/-- Model of `VariantAttr::try_merge` (lines 117-125): an entry of the
second annotation already contained in the first is a duplication error,
otherwise the entries are appended. -/
def VariantAttr.try_merge (self another : VariantAttr) : Except Error VariantAttr :=
  match another.find? (fun m => self.contains m) with
  | some _ => .error .dupArg
  | none => .ok (self ++ another)

/-- Model of `VariantAttr::from_attrs` (lines 129-133): parse every
`graphql` annotation on the variant and fold them through `try_merge`. -/
def VariantAttr.from_attrs (attrs : List (List AttrEntry)) : Except Error VariantAttr :=
  attrs.foldlM (fun prev cur => do
    let parsed ← VariantAttr.parse cur
    VariantAttr.try_merge prev parsed) []

/-- The checked single payload field of a variant (`Field` enum,
lines 400-433). -/
inductive Field where
  | named (f : FieldDecl)
  | unnamed (f : FieldDecl)

/-- Model of `impl TryFrom<syn::Fields> for Field` (lines 419-433): named
or unnamed fields of length exactly one succeed, everything else is the
"expected exactly 1 field" error. -/
def Field.try_from : Fields → Except Error Field
  | .named [f] => .ok (.named f)
  | .unnamed [f] => .ok (.unnamed f)
  | _ => .error .shapeError

/-- Model of `syn::Variant`: identifier, fields and its `graphql`
annotations (each one a list of raw entries). -/
structure SynVariant where
  ident : String
  fields : Fields
  attrs : List (List AttrEntry)

/-- A variant registered for one operation (`Variant` struct,
lines 377-388). -/
structure Variant where
  ident : String
  field : Field
  expr : Option ExprPath

/-- The `HashMap<Method, Vec<Variant>>` of the `Definition`, modelled as
a total map from operations to registration lists (a missing key reads
as the empty list, matching `methods.get(m).into_iter().flatten()`). -/
abbrev Methods := Method → List Variant

/-- `methods.entry(method).or_default().push(variant)` (lines 38-42). -/
def Methods.insert (ms : Methods) (m : Method) (v : Variant) : Methods :=
  fun m' => if m' = m then ms m' ++ [v] else ms m'

/-- Model of `syn::Data`: an enum with variants, or any other shape. -/
inductive Data where
  | enumData (variants : List SynVariant)
  | otherData

/-- Model of `syn::DeriveInput` for this macro. -/
structure DeriveInput where
  ident : String
  generics : Generics
  data : Data

/-- The `Definition` struct (lines 139-157). -/
structure Definition where
  ident : String
  generics : Generics
  variants : List SynVariant
  methods : Methods

/-- The per-variant body of the loop in `expand` (lines 34-44): check the
field shape first, then parse and merge the variant's annotations, then
register the variant for each recognized operation. -/
def process_variant (acc : Methods) (var : SynVariant) : Except Error Methods := do
  let field ← Field.try_from var.fields
  let attrs ← VariantAttr.from_attrs var.attrs
  pure (attrs.foldl
    (fun ms attr => Methods.insert ms attr.1 ⟨var.ident, field, attr.2⟩) acc)

/-- Model of `expand` (lines 25-53): reject non-enums, process every
variant in order, and only then assemble the `Definition` whose
`ToTokens` impl emits the complete binding set.  An error therefore
means that nothing at all is emitted. -/
def expand (input : DeriveInput) : Except Error Definition :=
  match input.data with
  | .otherData => .error .notEnum
  | .enumData vars => do
      let methods ← vars.foldlM process_variant (fun _ => [])
      pure ⟨input.ident, input.generics, vars, methods⟩

/-! ### Runtime semantics of the emitted code

The payload type of a variant is abstracted by a type parameter; custom
resolvers are interpreted by an environment mapping resolver paths to
functions, and the canonical default conversion of each operation
(`i32::from`, `f64::from`, ...) by an explicit function argument. -/

/-- A runtime value of the generated enum: which variant it was built
from, and that variant's payload. -/
structure UnionValue (α : Type) where
  variant : String
  payload : α

/-- First-match semantics of the match arms emitted for one operation by
`impl_scalar_value_tokens` (lines 208-222): an arm fires when the value
was built from the arm's variant, producing `Some` of the custom
resolver's or the default conversion's result; the trailing wildcard arm
produces `None`. -/
def run_arms {α : Type} (env : ExprPath → α → α) (defaultConv : α → α) :
    List Variant → String → α → Option α
  | [], _, _ => none
  | arm :: rest, variant, payload =>
      if arm.ident = variant then
        some (match arm.expr with
          | some f => env f payload
          | none => defaultConv payload)
      else run_arms env defaultConv rest variant payload

/-- Semantics of one generated `ScalarValue` projection method of the
`Definition`: dispatch over the arms registered for that operation,
falling through to `None`. -/
def scalar_value_method {α : Type} (d : Definition) (m : Method)
    (env : ExprPath → α → α) (defaultConv : α → α) (v : UnionValue α) : Option α :=
  run_arms env defaultConv (d.methods m) v.variant v.payload

/-- Semantics of the emitted `From<#var_ty> for #ty_ident` impl
(lines 259-267): wrap the payload into the variant. -/
def impl_from_construct {α : Type} (varIdent : String) (v : α) : UnionValue α :=
  ⟨varIdent, v⟩

/-- Semantics of the emitted owning `From<#ty_ident> for Option<#var_ty>`
impl (lines 269-280): an `if let` on the variant pattern, `None` on
mismatch. -/
def impl_from_owned {α : Type} (varIdent : String) (ty : UnionValue α) : Option α :=
  if ty.variant = varIdent then some ty.payload else none

/-- Semantics of the emitted reference-based
`From<&#ty_ident> for Option<&#var_ty>` impl (lines 282-294): the same
`if let`, returning a reference into the value on match. -/
def impl_from_ref {α : Type} (varIdent : String) (ty : UnionValue α) : Option α :=
  if ty.variant = varIdent then some ty.payload else none

/-- The extra `where` predicates synthesized by `impl_display_tokens`
(lines 304-322): for each variant, run the `IsVariantGeneric` visitor on
the variant's payload type and push a `#var_ty: std::fmt::Display` bound
exactly when the visitor reports `res = true`. -/
def impl_display_bounds (d : Definition) : List Ty :=
  d.variants.foldl (fun preds var =>
    match Fields.first_ty var.fields with
    | some var_ty =>
        if is_variant_generic d.generics var_ty then preds ++ [var_ty] else preds
    | none => preds) []

end ScalarValueDerive

/-! ## Embedding of `graphql_scalar/derive.rs` (`#[derive(GraphQLScalar)]`) -/

namespace GraphQLScalarDerive

/-- The recognized option keys of the `#[graphql(...)]` attribute
(`impl Parse for Attr`, lines 200-317), in the field order of the `Attr`
struct. -/
inductive Key where
  | name
  | description
  | specified_by_url
  | scalar
  | to_output
  | from_input
  | from_input_err
  | parse_token
  | with_
deriving DecidableEq

/-- The `ParseToken` enum (lines 966-976): a custom callable, or a list
of types whose impls are tried in order. -/
inductive ParseToken where
  | custom (f : ExprPath)
  | delegated (types : List Ty)

/-- The `Attr` struct (lines 139-198): one parsed configuration
fragment.  String-valued and type-valued references are modelled as
strings and `Ty` respectively; `with` is spelled `with_`. -/
structure Attr where
  name : Option String
  description : Option String
  specified_by_url : Option String
  scalar : Option String
  to_output : Option ExprPath
  from_input : Option ExprPath
  from_input_err : Option Ty
  parse_token : Option ParseToken
  with_ : Option ExprPath

/-- The `Default` impl derived for `Attr`: every option absent. -/
def Attr.init : Attr :=
  ⟨none, none, none, none, none, none, none, none, none⟩

/-- Whether a fragment carries the given option key. -/
def Attr.has (a : Attr) : Key → Bool
  | .name => a.name.isSome
  | .description => a.description.isSome
  | .specified_by_url => a.specified_by_url.isSome
  | .scalar => a.scalar.isSome
  | .to_output => a.to_output.isSome
  | .from_input => a.from_input.isSome
  | .from_input_err => a.from_input_err.isSome
  | .parse_token => a.parse_token.isSome
  | .with_ => a.with_.isSome

/-- Errors produced by this derive macro. -/
inductive Error where
  | dupArg (k : Key)
  | pairingError
  | expectedStruct
  | shapeError
deriving DecidableEq

/-- The `try_merge_opt!` macro for one option: a value present in the
second fragment replaces an absent one and collides with a present one. -/
def merge_opt {β : Type} (self another : Option β) : Except Unit (Option β) :=
  match another with
  | some v =>
      match self with
      | some _ => .error ()
      | none => .ok (some v)
  | none => .ok self

/-- Attach the offending key to a `merge_opt` duplication error, as
`err::dup_arg` names the duplicated key identifier. -/
def tag {β : Type} (k : Key) : Except Unit β → Except Error β
  | .ok v => .ok v
  | .error _ => .error (.dupArg k)

/-- Model of `Attr::try_merge` (lines 322-334): merge the two fragments
field by field in struct order, failing on the first duplicated key. -/
def Attr.try_merge (a b : Attr) : Except Error Attr := do
  let name ← tag .name (merge_opt a.name b.name)
  let description ← tag .description (merge_opt a.description b.description)
  let specified_by_url ← tag .specified_by_url (merge_opt a.specified_by_url b.specified_by_url)
  let scalar ← tag .scalar (merge_opt a.scalar b.scalar)
  let to_output ← tag .to_output (merge_opt a.to_output b.to_output)
  let from_input ← tag .from_input (merge_opt a.from_input b.from_input)
  let from_input_err ← tag .from_input_err (merge_opt a.from_input_err b.from_input_err)
  let parse_token ← tag .parse_token (merge_opt a.parse_token b.parse_token)
  let with_ ← tag .with_ (merge_opt a.with_ b.with_)
  pure ⟨name, description, specified_by_url, scalar, to_output,
    from_input, from_input_err, parse_token, with_⟩

/-- Model of `Attr::from_attrs` (lines 338-348): fold all fragments
through `try_merge` starting from the default, then fall back to the
declaration's doc comment for a missing description. -/
def Attr.from_attrs (attrs : List Attr) (doc_comment : Option String) : Except Error Attr := do
  let attr ← attrs.foldlM Attr.try_merge Attr.init
  pure (if attr.description.isNone then { attr with description := doc_comment } else attr)

/-- The single delegate field (`Field` enum, lines 1007-1013). -/
inductive Field where
  | named (f : FieldDecl)
  | unnamed (f : FieldDecl)

/-- Model of `Field::ty` (lines 1026-1030). -/
def Field.ty : Field → Ty
  | .named f => f.ty
  | .unnamed f => f.ty

/-- The shape of the closure emitted by `Field::closure_constructor`
(lines 1035-1042): build `Self` from the field value. -/
inductive SelfConstructor where
  | namedField (ident : Option String)
  | tupleSelf
deriving DecidableEq

/-- Model of `Field::closure_constructor`. -/
def Field.closure_constructor : Field → SelfConstructor
  | .named f => .namedField f.ident
  | .unnamed _ => .tupleSelf

/-- The `GraphQLScalarMethods` enum (lines 791-827): a fully custom
strategy or a delegated one with optional overrides and the sole payload
field. -/
inductive GraphQLScalarMethods where
  | custom (to_output : ExprPath) (from_input : ExprPath × Ty) (parse_token : ParseToken)
  | delegated (to_output : Option ExprPath) (from_input : Option (ExprPath × Ty))
      (parse_token : Option ParseToken) (field : Field)

/-- The alias-derived default `#module::to_output` (line 51). -/
def module_to_output (m : ExprPath) : ExprPath := m ++ "::to_output"

/-- The alias-derived default `#module::from_input` (line 53). -/
def module_from_input (m : ExprPath) : ExprPath := m ++ "::from_input"

/-- The alias-derived default `#module::Error` (line 54). -/
def module_error_ty (m : ExprPath) : Ty :=
  .path (.mk false [.mk m .noArguments, .mk "Error" .noArguments])

/-- The alias-derived default `#module::parse_token` (line 57). -/
def module_parse_token (m : ExprPath) : ParseToken :=
  .custom (m ++ "::parse_token")

/-- Model of `syn::Data` for this macro: a struct with fields, or any
other declaration shape. -/
inductive Data where
  | structData (fields : Fields)
  | otherData

/-- Model of the strategy-selection match of `expand` (lines 35-117).
Arm order matches the source: all four behaviors explicit and no module
alias is fully custom; any configuration with a module alias defaults
every unoverridden behavior to the alias member; otherwise the
`from_input_with`/`from_input_err` pairing is checked first, then the
declaration must be a struct with exactly one field, giving the
delegated strategy. -/
def expand_methods (attr : Attr) (data : Data) : Except Error GraphQLScalarMethods :=
  match attr.to_output, attr.from_input, attr.from_input_err, attr.parse_token, attr.with_ with
  | some to_output, some from_input, some from_input_err, some parse_token, none =>
      .ok (.custom to_output (from_input, from_input_err) parse_token)
  | to_output, from_input, from_input_err, parse_token, some module =>
      .ok (.custom (to_output.getD (module_to_output module))
        (from_input.getD (module_from_input module),
          from_input_err.getD (module_error_ty module))
        (parse_token.getD (module_parse_token module)))
  | to_output, from_input, from_input_err, parse_token, none => do
      let from_input ←
        match from_input, from_input_err with
        | some fi, some err => Except.ok (some (fi, err))
        | none, none => Except.ok none
        | _, _ => Except.error Error.pairingError
      let field ←
        match data with
        | .structData fs =>
            match fs with
            | .unit => Except.error Error.shapeError
            | .unnamed [f] => Except.ok (Field.unnamed f)
            | .unnamed _ => Except.error Error.shapeError
            | .named [f] => Except.ok (Field.named f)
            | .named _ => Except.error Error.shapeError
        | .otherData => Except.error Error.expectedStruct
      pure (GraphQLScalarMethods.delegated to_output from_input parse_token field)

/-- The `Definition` assembled by `expand` (lines 121-134); the
`ScalarValue` parametrization (`common/scalar.rs`) lives outside the
analysed sources and is omitted. -/
structure Definition where
  name : String
  ident : String
  methods : GraphQLScalarMethods
  description : Option String
  specified_by_url : Option String

/-- Model of `expand` after attribute merging: strategy selection plus
assembly of the `Definition` (name falls back to the type identifier). -/
def expand (attr : Attr) (ast_ident : String) (data : Data) : Except Error Definition := do
  let methods ← expand_methods attr data
  pure ⟨attr.name.getD ast_ident, ast_ident, methods, attr.description, attr.specified_by_url⟩

/-! ### The per-behavior emission bodies

Each `expand_*` method of `GraphQLScalarMethods` chooses between the
alternative `quote!` bodies of the source; the inductives below name
those alternatives.  A `call`/`explicitTy` constructor stands for
invoking the configured reference directly, a `delegate`/`fieldError`
constructor for the recursion into the sole payload field's own
implementation of the same behavior. -/

/-- Body of the emitted `GraphQLValue::resolve`. -/
inductive ResolveExpr where
  | call (f : ExprPath)
  | delegate (field : Field)

/-- Model of `GraphQLScalarMethods::expand_resolve` (lines 833-853). -/
def GraphQLScalarMethods.expand_resolve : GraphQLScalarMethods → ResolveExpr
  | .custom to_output _ _ => .call to_output
  | .delegated (some to_output) _ _ _ => .call to_output
  | .delegated none _ _ field => .delegate field

/-- Body of the emitted `GraphQLScalar::to_output`. -/
inductive ToOutputExpr where
  | call (f : ExprPath)
  | delegate (field : Field)

/-- Model of `GraphQLScalarMethods::expand_to_output` (lines 858-873). -/
def GraphQLScalarMethods.expand_to_output : GraphQLScalarMethods → ToOutputExpr
  | .custom to_output _ _ => .call to_output
  | .delegated (some to_output) _ _ _ => .call to_output
  | .delegated none _ _ field => .delegate field

/-- Body of the emitted `ToInputValue::to_input_value`. -/
inductive ToInputValueExpr where
  | viaToOutput (f : ExprPath)
  | delegate (field : Field)

/-- Model of `GraphQLScalarMethods::expand_to_input_value` (lines 878-894). -/
def GraphQLScalarMethods.expand_to_input_value : GraphQLScalarMethods → ToInputValueExpr
  | .custom to_output _ _ => .viaToOutput to_output
  | .delegated (some to_output) _ _ _ => .viaToOutput to_output
  | .delegated none _ _ field => .delegate field

/-- The emitted `FromInputValue::Error` associated type. -/
inductive FromInputErrTy where
  | explicitTy (t : Ty)
  | fieldError (fieldTy : Ty)

/-- Model of `GraphQLScalarMethods::expand_from_input_err`
(lines 899-914): an explicit error type if configured, otherwise exactly
`<#field_ty as FromInputValue>::Error`, the field's own error type. -/
def GraphQLScalarMethods.expand_from_input_err : GraphQLScalarMethods → FromInputErrTy
  | .custom _ (_, err) _ => .explicitTy err
  | .delegated _ (some (_, err)) _ _ => .explicitTy err
  | .delegated _ none _ field => .fieldError field.ty

/-- Body of the emitted `FromInputValue::from_input_value`. -/
inductive FromInputExpr where
  | call (f : ExprPath)
  | delegate (fieldTy : Ty) (ctor : SelfConstructor)

/-- Model of `GraphQLScalarMethods::expand_from_input` (lines 919-940). -/
def GraphQLScalarMethods.expand_from_input : GraphQLScalarMethods → FromInputExpr
  | .custom _ (from_input, _) _ => .call from_input
  | .delegated _ (some (from_input, _)) _ _ => .call from_input
  | .delegated _ none _ field => .delegate field.ty field.closure_constructor

/-- Body of the emitted `ParseScalarValue::from_str`. -/
inductive ParseTokenExpr where
  | call (f : ExprPath)
  | tryInOrder (types : List Ty)
  | delegate (fieldTy : Ty)

/-- Model of `ParseToken::expand_from_str` (lines 982-1003): a custom
callable, or the `or_else` chain over the listed types. -/
def ParseToken.expand_from_str : ParseToken → ParseTokenExpr
  | .custom f => .call f
  | .delegated types => .tryInOrder types

/-- Model of `GraphQLScalarMethods::expand_parse_token` (lines 945-960). -/
def GraphQLScalarMethods.expand_parse_token : GraphQLScalarMethods → ParseTokenExpr
  | .custom _ _ pt => pt.expand_from_str
  | .delegated _ _ (some pt) _ => pt.expand_from_str
  | .delegated _ _ none field => .delegate field.ty

end GraphQLScalarDerive

/-! ## Embedding of `limit_number_of_aliases.rs` -/

namespace AliasesRule

/-- The `Aliases` visitor state (lines 8-11).  Both counters are `u8` in
the source; they are modelled as naturals with the wrapping of release
builds made explicit as a reduction modulo `2^8` at the increment. -/
structure Aliases where
  alias_count : Nat
  max_allowed : Nat

/-- Model of `factory` (lines 13-18). -/
def factory : Aliases :=
  ⟨0, 3⟩

/-- Model of `error_message` (lines 48-50). -/
def error_message (alias_name : String) : String :=
  "Illegal number of aliases, " ++ alias_name ++ " is not allowed"

/-- Model of `enter_operation_definition` (lines 24-30): reset the
counter for each operation. -/
def enter_operation_definition (st : Aliases) : Aliases :=
  { st with alias_count := 0 }

/-- Model of `enter_field` (lines 32-45): on an aliased field, increment
the counter (wrapping at `2^8`) and report an error exactly when the new
counter exceeds `max_allowed`; an unaliased field changes nothing. -/
def enter_field (st : Aliases) (alias_name : Option String) : Aliases × Option String :=
  match alias_name with
  | some a =>
      let c := (st.alias_count + 1) % 256
      ({ st with alias_count := c },
        if st.max_allowed < c then some (error_message a) else none)
  | none => (st, none)

/-- Walk the fields of one operation in order through `enter_field`,
recording for each field whether an error was reported for it. -/
def visit_fields (st : Aliases) : List (Option String) → List Bool
  | [] => []
  | f :: fs =>
      let r := enter_field st f
      r.2.isSome :: visit_fields r.1 fs

/-- One full operation: the fresh visitor enters the operation (counter
reset) and then every field in order. -/
def run_operation (fields : List (Option String)) : List Bool :=
  visit_fields (enter_operation_definition factory) fields

/-- Number of aliased fields in a prefix of the operation. -/
def aliased_count (fields : List (Option String)) : Nat :=
  (fields.filter Option.isSome).length

end AliasesRule

/-! ## Theorems about the claims -/

/-- C2: the claim states that the Generic-Dependency Analyzer finds a
generic parameter occurring anywhere inside the type expression, in
particular by descending into nested type arguments of compound types.
The embedded visitor refutes the descent part: for the parameter set
containing `T`, the compound type `Vec<T>` is reported independent
(`res = false`), because `visit_path` does nothing on a path whose
`get_ident()` is `None`; a bare `T` is still found.  This contradicts
the visitor's own stated purpose of detecting whether the field type
contains generic parameters. -/
theorem c2_nested_parameter_not_found :
    is_variant_generic ⟨[.typeParam "T"]⟩
      (.path (.mk false [.mk "Vec" (.angleBracketed
        [.typeArg (.path (.mk false [.mk "T" .noArguments]))])])) = false ∧
    is_variant_generic ⟨[.typeParam "T"]⟩
      (.path (.mk false [.mk "T" .noArguments])) = true := by
  constructor <;>
    simp [is_variant_generic, visit_type, visit_path, SynPath.get_ident, is_generic_param]

namespace ScalarValueDerive

/-- C5: for the wrapper kind, both emitted inverse conversions are left
inverses of the emitted construction conversion: converting the union
value built from a payload back to the optional payload yields `Some` of
that payload, for the owning and the reference-based impl alike. -/
theorem c5_from_round_trip {α : Type} (varIdent : String) (p : α) :
    impl_from_owned varIdent (impl_from_construct varIdent p) = some p ∧
    impl_from_ref varIdent (impl_from_construct varIdent p) = some p := by
  constructor <;> simp [impl_from_owned, impl_from_ref, impl_from_construct]

/-- Dispatch over match arms yields `None` when no arm carries the
value's variant. -/
theorem run_arms_eq_none {α : Type} (env : ExprPath → α → α) (defaultConv : α → α)
    (arms : List Variant) (variant : String) (payload : α)
    (h : variant ∉ arms.map Variant.ident) :
    run_arms env defaultConv arms variant payload = none := by
  induction arms with
  | nil => rfl
  | cons a rest ih =>
      simp only [List.map_cons, List.mem_cons, not_or] at h
      unfold run_arms
      rw [if_neg fun he => h.1 he.symm]
      exact ih h.2

/-- C6: for every projection operation and every variant that
contributes no match arm for it (a variant not opted into the
operation), the generated method returns `None` on every union value
built from that variant, whatever the payload, the resolver environment
and the default conversion are. -/
theorem c6_not_opted_in_yields_none {α : Type} (d : Definition) (m : Method)
    (env : ExprPath → α → α) (defaultConv : α → α) (variant : String) (payload : α)
    (h : variant ∉ (d.methods m).map Variant.ident) :
    scalar_value_method d m env defaultConv ⟨variant, payload⟩ = none :=
  run_arms_eq_none env defaultConv (d.methods m) variant payload h

/-- Witness for C6 at a concrete definition with no registrations. -/
theorem c6_witness :
    ("V" ∉ ((Definition.mk "SV" ⟨[]⟩ [] fun _ => []).methods .asInt).map Variant.ident) ∧
    scalar_value_method (Definition.mk "SV" ⟨[]⟩ [] fun _ => []) .asInt
      (fun _ v => v) (fun v => v) ⟨"V", (0 : Nat)⟩ = none :=
  ⟨by simp, c6_not_opted_in_yields_none _ _ _ _ _ _ (by simp)⟩

end ScalarValueDerive

namespace GraphQLScalarDerive

/-- C4: for the `Delegated` strategy with zero overrides, each of the
four behaviors (to-output, from-input, token-parse, resolve) expands to
the recursion into the sole payload field's own implementation of the
same-named behavior, and the synthesized input-parsing error type is
exactly the field's own `FromInputValue::Error` type. -/
theorem c4_delegated_all_deferred (field : Field) :
    (GraphQLScalarMethods.delegated none none none field).expand_to_output
        = .delegate field ∧
    (GraphQLScalarMethods.delegated none none none field).expand_from_input
        = .delegate field.ty field.closure_constructor ∧
    (GraphQLScalarMethods.delegated none none none field).expand_parse_token
        = .delegate field.ty ∧
    (GraphQLScalarMethods.delegated none none none field).expand_resolve
        = .delegate field ∧
    (GraphQLScalarMethods.delegated none none none field).expand_from_input_err
        = .fieldError field.ty :=
  ⟨rfl, rfl, rfl, rfl, rfl⟩

/-- Counterexample to C3 as stated: with a module alias `with`
configured, supplying `from_input_with` without `from_input_err` does
not raise the pairing error at all — the alias branch of the strategy
match fires first and fills the missing member from the alias. -/
theorem c3_counterexample :
    expand_methods { Attr.init with from_input := some "f", with_ := some "m" } .otherData
      = .ok (.custom (module_to_output "m") ("f", module_error_ty "m")
          (module_parse_token "m")) := rfl

/-- C3 (amended): when no module alias is configured, supplying exactly
one of the `from_input_with`/`from_input_err` pair raises the pairing
error for every declaration shape, hence before any shape inspection
can influence the outcome. -/
theorem c3_pairing_error_without_alias (attr : Attr) (data : Data)
    (hw : attr.with_ = none)
    (hx : attr.from_input.isSome ≠ attr.from_input_err.isSome) :
    expand_methods attr data = .error .pairingError := by
  rcases attr with ⟨n, d', u, s, tout, fi, fie, pt, w⟩
  obtain rfl : w = none := hw
  cases tout <;> cases fi <;> cases fie <;> cases pt <;>
    first
      | rfl
      | exact absurd rfl hx

/-- Witness for the amended C3 at a concrete configuration. -/
theorem c3_witness :
    ({ Attr.init with from_input := some "f" } : Attr).with_ = none ∧
    ({ Attr.init with from_input := some "f" } : Attr).from_input.isSome
      ≠ ({ Attr.init with from_input := some "f" } : Attr).from_input_err.isSome ∧
    expand_methods { Attr.init with from_input := some "f" } .otherData
      = .error .pairingError :=
  ⟨rfl, by simp [Attr.init], c3_pairing_error_without_alias _ .otherData rfl (by simp [Attr.init])⟩

/-- C9: with a module alias configured together with an explicit
`to_output_with`, the resolved strategy uses the explicit reference for
to-output, and the alias-derived `module::member` defaults are used for
exactly the behaviors that carry no explicit override. -/
theorem c9_explicit_override_beats_alias (attr : Attr) (data : Data) (m f : ExprPath)
    (hw : attr.with_ = some m) (ht : attr.to_output = some f) :
    expand_methods attr data = .ok (.custom f
      (attr.from_input.getD (module_from_input m),
        attr.from_input_err.getD (module_error_ty m))
      (attr.parse_token.getD (module_parse_token m))) := by
  rcases attr with ⟨n, d', u, s, tout, fi, fie, pt, w⟩
  obtain rfl : w = some m := hw
  obtain rfl : tout = some f := ht
  cases fi <;> cases fie <;> cases pt <;> rfl

/-- Witness for C9 at a concrete configuration carrying both the alias
and an explicit to-output override. -/
theorem c9_witness :
    ({ Attr.init with with_ := some "m", to_output := some "f" } : Attr).with_ = some "m" ∧
    ({ Attr.init with with_ := some "m", to_output := some "f" } : Attr).to_output = some "f" ∧
    expand_methods { Attr.init with with_ := some "m", to_output := some "f" } .otherData
      = .ok (.custom "f" (module_from_input "m", module_error_ty "m")
          (module_parse_token "m")) :=
  ⟨rfl, rfl, c9_explicit_override_beats_alias _ .otherData "m" "f" rfl rfl⟩

end GraphQLScalarDerive

namespace ScalarValueDerive

/-- Membership in the fold that accumulates the synthesized `Display`
bounds: a type is pushed exactly when it is some variant's payload type
and the visitor reports it generic-dependent. -/
theorem display_bounds_foldl_mem (g : Generics) (vs : List SynVariant)
    (acc : List Ty) (t : Ty) :
    (t ∈ vs.foldl (fun preds var =>
      match Fields.first_ty var.fields with
      | some var_ty =>
          if is_variant_generic g var_ty then preds ++ [var_ty] else preds
      | none => preds) acc)
    ↔ (t ∈ acc ∨ ∃ v ∈ vs, Fields.first_ty v.fields = some t ∧
        is_variant_generic g t = true) := by
  induction vs generalizing acc with
  | nil => simp
  | cons v rest ih =>
      rw [List.foldl_cons, ih]
      cases hf : Fields.first_ty v.fields with
      | none => simp [hf]
      | some vt =>
          by_cases hg : is_variant_generic g vt = true
          · have hiff : ∀ u : Ty, u = vt ↔ (Fields.first_ty v.fields = some u ∧
                is_variant_generic g u = true) := by
              intro u
              constructor
              · rintro rfl
                exact ⟨hf, hg⟩
              · rintro ⟨h1, _⟩
                rw [hf] at h1
                exact (Option.some.inj h1).symm
            simp only [hf, hg, if_true, List.mem_append, List.mem_singleton]
            rw [hiff t]
            simp [or_assoc, or_comm, or_left_comm, and_comm, and_left_comm]
            tauto
          · simp only [hf, hg, if_false]
            constructor
            · rintro (h | h)
              · exact Or.inl h
              · rcases h with ⟨w, hw, hwt⟩
                exact Or.inr ⟨w, List.mem_cons_of_mem _ hw, hwt⟩
            · rintro (h | ⟨w, hw, hwt⟩)
              · exact Or.inl h
              · rcases List.mem_cons.mp hw with rfl | hw'
                · rw [hf] at hwt
                  obtain rfl := Option.some.inj hwt.1
                  exact absurd hwt.2 hg
                · exact Or.inr ⟨w, hw', hwt⟩

/-- C1 (amended): in the synthesized textual-rendering implementation, a
`Display` capability bound is added for a variant's payload type if and
only if that type is some variant's payload type and the
Generic-Dependency Analyzer found it dependent on the union's own
generic parameters (`res = true`); independent payload types never
receive a bound. -/
theorem c1_display_bound_iff_dependent (d : Definition) (t : Ty) :
    t ∈ impl_display_bounds d ↔
      ∃ v ∈ d.variants, Fields.first_ty v.fields = some t ∧
        is_variant_generic d.generics t = true := by
  unfold impl_display_bounds
  rw [display_bounds_foldl_mem]
  simp

/-- Counterexample to C1 as stated: a payload type that is exactly the
union's own type parameter `T` is found dependent by the analyzer, yet
it does receive the `Display` bound — the source pushes the bound when
`check.res` is true, not when it is false. -/
theorem c1_counterexample :
    is_variant_generic ⟨[.typeParam "T"]⟩
      (Ty.path (.mk false [.mk "T" .noArguments])) = true ∧
    Ty.path (.mk false [.mk "T" .noArguments]) ∈ impl_display_bounds
      ⟨"S", ⟨[.typeParam "T"]⟩,
        [⟨"Var", .unnamed [⟨none, Ty.path (.mk false [.mk "T" .noArguments])⟩], []⟩],
        fun _ => []⟩ := by
  constructor
  · simp [is_variant_generic, visit_type, visit_path, SynPath.get_ident,
      is_generic_param]
  · simp [impl_display_bounds, Fields.first_ty, is_variant_generic, visit_type,
      visit_path, SynPath.get_ident, is_generic_param]

/-- A fields value with a field count other than one is rejected by
`Field::try_from` with the shape error. -/
theorem try_from_shape_bad (fs : Fields) (h : fs.count ≠ 1) :
    Field.try_from fs = .error .shapeError := by
  cases fs with
  | named l =>
      rcases l with _ | ⟨f, _ | ⟨g, t⟩⟩
      · rfl
      · exact absurd rfl h
      · rfl
  | unnamed l =>
      rcases l with _ | ⟨f, _ | ⟨g, t⟩⟩
      · rfl
      · exact absurd rfl h
      · rfl
  | unit => rfl

/-- A fields value with exactly one field passes `Field::try_from`. -/
theorem try_from_shape_ok (fs : Fields) (h : fs.count = 1) :
    ∃ fld, Field.try_from fs = .ok fld := by
  cases fs with
  | named l =>
      rcases l with _ | ⟨f, _ | ⟨g, t⟩⟩
      · simp [Fields.count] at h
      · exact ⟨_, rfl⟩
      · simp [Fields.count] at h
  | unnamed l =>
      rcases l with _ | ⟨f, _ | ⟨g, t⟩⟩
      · simp [Fields.count] at h
      · exact ⟨_, rfl⟩
      · simp [Fields.count] at h
  | unit => simp [Fields.count] at h

/-- Processing a variant whose field count differs from one fails with
the shape error before its annotations are even parsed. -/
theorem process_variant_shape_bad (acc : Methods) (var : SynVariant)
    (h : var.fields.count ≠ 1) :
    process_variant acc var = .error .shapeError := by
  unfold process_variant
  rw [try_from_shape_bad _ h]
  rfl

/-- Processing a well-shaped variant with well-formed annotations
succeeds. -/
theorem process_variant_ok (acc : Methods) (var : SynVariant)
    (hshape : var.fields.count = 1)
    (hattrs : ∃ va, VariantAttr.from_attrs var.attrs = .ok va) :
    ∃ acc', process_variant acc var = .ok acc' := by
  obtain ⟨fld, hfld⟩ := try_from_shape_ok _ hshape
  obtain ⟨va, hva⟩ := hattrs
  simp only [process_variant, hfld, hva]
  exact ⟨_, rfl⟩

/-- The variant loop of `expand` fails with the shape error whenever
some variant is badly shaped, provided every variant's annotations are
well formed. -/
theorem foldlM_shape_error (vs : List SynVariant) :
    ∀ acc : Methods, (∃ v ∈ vs, v.fields.count ≠ 1) →
      (∀ v ∈ vs, ∃ va, VariantAttr.from_attrs v.attrs = .ok va) →
      vs.foldlM process_variant acc = .error .shapeError := by
  induction vs with
  | nil =>
      intro acc h _
      simp at h
  | cons v rest ih =>
      intro acc hbad hattrs
      rw [List.foldlM_cons]
      by_cases hv : v.fields.count = 1
      · obtain ⟨acc', hacc⟩ := process_variant_ok acc v hv (hattrs v (by simp))
        rw [hacc]
        have step : rest.foldlM process_variant acc' = .error .shapeError := by
          refine ih acc' ?_ ?_
          · rcases hbad with ⟨w, hw, hcnt⟩
            rcases List.mem_cons.mp hw with rfl | hw'
            · exact absurd hv hcnt
            · exact ⟨w, hw', hcnt⟩
          · intro w hw
            exact hattrs w (List.mem_cons_of_mem _ hw)
        exact step
      · rw [process_variant_shape_bad acc v hv]
        rfl

/-- C8: for a wrapper-kind target (an enum) containing a variant with
zero or two-or-more payload fields, and whose variant annotations are
otherwise well formed, `expand` always fails with the shape error — no
`Definition` is produced, hence no binding at all is emitted for the
target. -/
theorem c8_shape_error_aborts (input : DeriveInput) (vars : List SynVariant)
    (hdata : input.data = .enumData vars)
    (hbad : ∃ v ∈ vars, v.fields.count ≠ 1)
    (hattrs : ∀ v ∈ vars, ∃ va, VariantAttr.from_attrs v.attrs = .ok va) :
    expand input = .error .shapeError := by
  rcases input with ⟨id, g, data⟩
  obtain rfl : data = .enumData vars := hdata
  simp only [expand]
  rw [foldlM_shape_error vars _ hbad hattrs]
  rfl

/-- Witness for C8 at a one-variant enum whose variant has no fields. -/
theorem c8_witness :
    (DeriveInput.mk "SV" ⟨[]⟩ (.enumData [⟨"V", .unit, []⟩])).data
        = .enumData [⟨"V", .unit, []⟩] ∧
    (∃ v ∈ [SynVariant.mk "V" .unit []], v.fields.count ≠ 1) ∧
    (∀ v ∈ [SynVariant.mk "V" .unit []], ∃ va, VariantAttr.from_attrs v.attrs = .ok va) ∧
    expand (DeriveInput.mk "SV" ⟨[]⟩ (.enumData [⟨"V", .unit, []⟩])) = .error .shapeError := by
  have hattrs : ∀ v ∈ [SynVariant.mk "V" .unit []],
      ∃ va, VariantAttr.from_attrs v.attrs = .ok va := by
    intro v hv
    rw [List.mem_singleton.mp hv]
    exact ⟨[], rfl⟩
  have hbad : ∃ v ∈ [SynVariant.mk "V" .unit []], v.fields.count ≠ 1 :=
    ⟨⟨"V", .unit, []⟩, by simp, by decide⟩
  exact ⟨rfl, hbad, hattrs, c8_shape_error_aborts _ _ rfl hbad hattrs⟩

end ScalarValueDerive

namespace GraphQLScalarDerive

/-- A key present in both fragments collides in `merge_opt`. -/
theorem merge_opt_both {β : Type} (x y : Option β)
    (h : x.isSome = true ∧ y.isSome = true) : merge_opt x y = .error () := by
  cases x <;> cases y <;> simp_all [merge_opt]

/-- A key absent from at least one fragment merges successfully. -/
theorem merge_opt_ok {β : Type} (x y : Option β)
    (h : ¬(x.isSome = true ∧ y.isSome = true)) : ∃ v, merge_opt x y = .ok v := by
  cases x with
  | none =>
      cases y with
      | none => exact ⟨none, rfl⟩
      | some v => exact ⟨some v, rfl⟩
  | some u =>
      cases y with
      | none => exact ⟨some u, rfl⟩
      | some v => exact absurd ⟨rfl, rfl⟩ h

/-- C7: whenever an option key is carried by both configuration
fragments, `Attr::try_merge` fails with a duplication error naming an
offending key, and merging the two fragments in the opposite order
fails with the very same error — there is no first-wins outcome for any
key. -/
theorem c7_duplicate_key_raises_symmetric (a b : Attr) (k : Key)
    (ha : a.has k = true) (hb : b.has k = true) :
    ∃ k', Attr.try_merge a b = .error (.dupArg k') ∧
      Attr.try_merge b a = .error (.dupArg k') ∧
      a.has k' = true ∧ b.has k' = true := by
  by_cases h1 : a.name.isSome = true ∧ b.name.isSome = true
  · refine ⟨.name, ?_, ?_, h1.1, h1.2⟩
    · unfold Attr.try_merge
      rw [ merge_opt_both _ _ h1]
      rfl
    · unfold Attr.try_merge
      rw [ merge_opt_both _ _ ⟨h1.2, h1.1⟩]
      rfl
  · obtain ⟨v1, hv1⟩ := merge_opt_ok a.name b.name h1
    obtain ⟨w1, hw1⟩ := merge_opt_ok b.name a.name (fun hh => h1 ⟨hh.2, hh.1⟩)
    by_cases h2 : a.description.isSome = true ∧ b.description.isSome = true
    · refine ⟨.description, ?_, ?_, h2.1, h2.2⟩
      · unfold Attr.try_merge
        rw [hv1, merge_opt_both _ _ h2]
        rfl
      · unfold Attr.try_merge
        rw [hw1, merge_opt_both _ _ ⟨h2.2, h2.1⟩]
        rfl
    · obtain ⟨v2, hv2⟩ := merge_opt_ok a.description b.description h2
      obtain ⟨w2, hw2⟩ := merge_opt_ok b.description a.description (fun hh => h2 ⟨hh.2, hh.1⟩)
      by_cases h3 : a.specified_by_url.isSome = true ∧ b.specified_by_url.isSome = true
      · refine ⟨.specified_by_url, ?_, ?_, h3.1, h3.2⟩
        · unfold Attr.try_merge
          rw [hv1, hv2, merge_opt_both _ _ h3]
          rfl
        · unfold Attr.try_merge
          rw [hw1, hw2, merge_opt_both _ _ ⟨h3.2, h3.1⟩]
          rfl
      · obtain ⟨v3, hv3⟩ := merge_opt_ok a.specified_by_url b.specified_by_url h3
        obtain ⟨w3, hw3⟩ := merge_opt_ok b.specified_by_url a.specified_by_url (fun hh => h3 ⟨hh.2, hh.1⟩)
        by_cases h4 : a.scalar.isSome = true ∧ b.scalar.isSome = true
        · refine ⟨.scalar, ?_, ?_, h4.1, h4.2⟩
          · unfold Attr.try_merge
            rw [hv1, hv2, hv3, merge_opt_both _ _ h4]
            rfl
          · unfold Attr.try_merge
            rw [hw1, hw2, hw3, merge_opt_both _ _ ⟨h4.2, h4.1⟩]
            rfl
        · obtain ⟨v4, hv4⟩ := merge_opt_ok a.scalar b.scalar h4
          obtain ⟨w4, hw4⟩ := merge_opt_ok b.scalar a.scalar (fun hh => h4 ⟨hh.2, hh.1⟩)
          by_cases h5 : a.to_output.isSome = true ∧ b.to_output.isSome = true
          · refine ⟨.to_output, ?_, ?_, h5.1, h5.2⟩
            · unfold Attr.try_merge
              rw [hv1, hv2, hv3, hv4, merge_opt_both _ _ h5]
              rfl
            · unfold Attr.try_merge
              rw [hw1, hw2, hw3, hw4, merge_opt_both _ _ ⟨h5.2, h5.1⟩]
              rfl
          · obtain ⟨v5, hv5⟩ := merge_opt_ok a.to_output b.to_output h5
            obtain ⟨w5, hw5⟩ := merge_opt_ok b.to_output a.to_output (fun hh => h5 ⟨hh.2, hh.1⟩)
            by_cases h6 : a.from_input.isSome = true ∧ b.from_input.isSome = true
            · refine ⟨.from_input, ?_, ?_, h6.1, h6.2⟩
              · unfold Attr.try_merge
                rw [hv1, hv2, hv3, hv4, hv5, merge_opt_both _ _ h6]
                rfl
              · unfold Attr.try_merge
                rw [hw1, hw2, hw3, hw4, hw5, merge_opt_both _ _ ⟨h6.2, h6.1⟩]
                rfl
            · obtain ⟨v6, hv6⟩ := merge_opt_ok a.from_input b.from_input h6
              obtain ⟨w6, hw6⟩ := merge_opt_ok b.from_input a.from_input (fun hh => h6 ⟨hh.2, hh.1⟩)
              by_cases h7 : a.from_input_err.isSome = true ∧ b.from_input_err.isSome = true
              · refine ⟨.from_input_err, ?_, ?_, h7.1, h7.2⟩
                · unfold Attr.try_merge
                  rw [hv1, hv2, hv3, hv4, hv5, hv6, merge_opt_both _ _ h7]
                  rfl
                · unfold Attr.try_merge
                  rw [hw1, hw2, hw3, hw4, hw5, hw6, merge_opt_both _ _ ⟨h7.2, h7.1⟩]
                  rfl
              · obtain ⟨v7, hv7⟩ := merge_opt_ok a.from_input_err b.from_input_err h7
                obtain ⟨w7, hw7⟩ := merge_opt_ok b.from_input_err a.from_input_err (fun hh => h7 ⟨hh.2, hh.1⟩)
                by_cases h8 : a.parse_token.isSome = true ∧ b.parse_token.isSome = true
                · refine ⟨.parse_token, ?_, ?_, h8.1, h8.2⟩
                  · unfold Attr.try_merge
                    rw [hv1, hv2, hv3, hv4, hv5, hv6, hv7, merge_opt_both _ _ h8]
                    rfl
                  · unfold Attr.try_merge
                    rw [hw1, hw2, hw3, hw4, hw5, hw6, hw7, merge_opt_both _ _ ⟨h8.2, h8.1⟩]
                    rfl
                · obtain ⟨v8, hv8⟩ := merge_opt_ok a.parse_token b.parse_token h8
                  obtain ⟨w8, hw8⟩ := merge_opt_ok b.parse_token a.parse_token (fun hh => h8 ⟨hh.2, hh.1⟩)
                  by_cases h9 : a.with_.isSome = true ∧ b.with_.isSome = true
                  · refine ⟨.with_, ?_, ?_, h9.1, h9.2⟩
                    · unfold Attr.try_merge
                      rw [hv1, hv2, hv3, hv4, hv5, hv6, hv7, hv8, merge_opt_both _ _ h9]
                      rfl
                    · unfold Attr.try_merge
                      rw [hw1, hw2, hw3, hw4, hw5, hw6, hw7, hw8, merge_opt_both _ _ ⟨h9.2, h9.1⟩]
                      rfl
                  · obtain ⟨v9, hv9⟩ := merge_opt_ok a.with_ b.with_ h9
                    obtain ⟨w9, hw9⟩ := merge_opt_ok b.with_ a.with_ (fun hh => h9 ⟨hh.2, hh.1⟩)
                    exfalso
                    cases k
                    all_goals first | exact h1 ⟨ha, hb⟩ | exact h2 ⟨ha, hb⟩ | exact h3 ⟨ha, hb⟩ | exact h4 ⟨ha, hb⟩ | exact h5 ⟨ha, hb⟩ | exact h6 ⟨ha, hb⟩ | exact h7 ⟨ha, hb⟩ | exact h8 ⟨ha, hb⟩ | exact h9 ⟨ha, hb⟩

/-- Witness for C7 at two concrete fragments that both set `name`. -/
theorem c7_witness :
    ({ Attr.init with name := some "A" } : Attr).has .name = true ∧
    ({ Attr.init with name := some "B" } : Attr).has .name = true ∧
    (∃ k', Attr.try_merge { Attr.init with name := some "A" }
          { Attr.init with name := some "B" } = .error (.dupArg k') ∧
        Attr.try_merge { Attr.init with name := some "B" }
          { Attr.init with name := some "A" } = .error (.dupArg k') ∧
        ({ Attr.init with name := some "A" } : Attr).has k' = true ∧
        ({ Attr.init with name := some "B" } : Attr).has k' = true) :=
  ⟨rfl, rfl, c7_duplicate_key_raises_symmetric _ _ .name rfl rfl⟩

end GraphQLScalarDerive

namespace AliasesRule

/-- Position-wise characterisation of the visitor's reports, for an
arbitrary (reduced) starting counter value: the field at position `i`
is reported exactly when it is aliased and the wrapped counter after it
exceeds the limit of three. -/
theorem visit_fields_getD (fields : List (Option String)) : ∀ (c i : Nat), c < 256 →
    (visit_fields ⟨c, 3⟩ fields).getD i false =
      ((fields.getD i none).isSome &&
        decide (3 < (c + aliased_count (fields.take (i + 1))) % 256)) := by
  induction fields with
  | nil =>
      intro c i hc
      simp [visit_fields, aliased_count]
  | cons f fs ih =>
      intro c i hc
      cases f with
      | none =>
          cases i with
          | zero => simp [visit_fields, enter_field]
          | succ i =>
              simp only [visit_fields, enter_field, List.getD_cons_succ, List.take_succ_cons]
              rw [ih c i hc]
              simp [aliased_count]
      | some a =>
          cases i with
          | zero =>
              simp [visit_fields, enter_field, aliased_count]
              split <;> simp_all
          | succ i =>
              simp only [visit_fields, enter_field, List.getD_cons_succ, List.take_succ_cons]
              rw [ih ((c + 1) % 256) i (Nat.mod_lt _ (by norm_num))]
              have harith : ((c + 1) % 256 + aliased_count (fs.take (i + 1))) % 256
                  = (c + aliased_count (some a :: fs.take (i + 1))) % 256 := by
                simp only [aliased_count, List.filter_cons, Option.isSome_some, if_true]
                simp [List.length_cons]
                omega
              rw [harith]

set_option maxRecDepth 8192 in
/-- C10: the per-operation alias counter is incremented once per aliased
field and, under the modulo-256 wrapping of the 8-bit counter, a
violation is reported for a field exactly when the wrapped count of
aliased fields up to and including it exceeds three.  Consequently, in
an operation of 256 aliased fields the 256th field — far beyond the
third — is aliased yet not reported, because the counter has wrapped
past zero. -/
theorem c10_u8_wrapping_counter :
    (∀ (fields : List (Option String)) (i : Nat),
        (run_operation fields).getD i false =
          ((fields.getD i none).isSome &&
            decide (3 < aliased_count (fields.take (i + 1)) % 256))) ∧
    ((List.replicate 256 (some "a")).getD 255 none).isSome = true ∧
    (run_operation (List.replicate 256 (some "a"))).getD 255 true = false := by
  refine ⟨?_, ?_, ?_⟩
  · intro fields i
    have h := visit_fields_getD fields 0 i (by norm_num)
    simpa [run_operation, enter_operation_definition, factory] using h
  · decide
  · decide

end AliasesRule
